import Mathlib

/-!
Verification of the job-tracker reconciliation and notification pipeline.

The definitions below are a shallow embedding of the Python source:
  * `save_jobs`, `get_all_jobs`, `update_discovery_date_by_url`,
    `unsubscribe_user`, `is_subscribed` from `src/job_tracker/db.py`
    (the SQLite table is modelled as a list of rows; dates as naturals);
  * `send_message`, `send_bulk`, `notify_subscribers_daily_update`,
    `notify_subscribers_error`, `check_and_notify_new_jobs` from
    `src/job_tracker/telegram_bot.py` (the Telegram channel is modelled
    as a delivery oracle, the registry and delivery log as explicit state);
  * `get_jobs` from `src/job_tracker/jobs.py` (the HTTP fetch is modelled
    as a `FetchResult`; the function swallows every error into `[]`).
-/

namespace JobTracker

/-- A candidate posting scraped from the listing page
(`jobs.py` builds dicts with keys `name` and `url`). -/
structure Job where
  name : String
  url : String
  deriving DecidableEq

/-- A row of the `jobs` table created by `init_database` (`db.py`).
The autoincrement integer id plays no role in any claim; dates are
abstracted as naturals. -/
structure JobRow where
  name : String
  url : String
  first_seen : Nat
  last_seen : Nat
  is_active : Bool
  deriving DecidableEq

/-- The `jobs` table, as the list of its rows. -/
abbrev Store := List JobRow

/-- The urls stored in the table, in row order. -/
def urls (s : Store) : List String := s.map (·.url)

/-- The urls of a candidate batch, in batch order. -/
def candidateUrls (jobs : List Job) : List String := jobs.map (·.url)

/-- `UPDATE jobs SET is_active = FALSE` (`save_jobs`, first statement). -/
def deactivateAll (s : Store) : Store := s.map (fun r => { r with is_active := false })

/-- The row-level effect of the `UPDATE ... WHERE url = ?` statement of
`save_jobs` for candidate `j`. -/
def updFn (j : Job) (today : Nat) (r : JobRow) : JobRow :=
  if r.url == j.url then { r with name := j.name, last_seen := today, is_active := true } else r

/-- The row built by the `INSERT INTO jobs ...` statement of `save_jobs`. -/
def newRow (j : Job) (today : Nat) : JobRow :=
  { name := j.name, url := j.url, first_seen := today, last_seen := today, is_active := true }

/-- The `for job in jobs` loop of `save_jobs` (`db.py`): look the url up,
update every matching row or append a fresh one, and accumulate the
`new_jobs` / `updated_jobs` counters. -/
def saveJobsLoop (today : Nat) : Store → List Job → Nat → Nat → Store × Nat × Nat
  | st, [], n, u => (st, n, u)
  | st, j :: rest, n, u =>
    match st.find? (fun r => r.url == j.url) with
    | some _ => saveJobsLoop today (st.map (updFn j today)) rest n (u + 1)
    | none => saveJobsLoop today (st ++ [newRow j today]) rest (n + 1) u

/-- `save_jobs(db_path, jobs)` (`db.py` lines 28-61): blanket deactivation
followed by the per-candidate loop; returns the final table and the pair
`(new_jobs, updated_jobs)`. -/
def save_jobs (s : Store) (jobs : List Job) (today : Nat) : Store × Nat × Nat :=
  saveJobsLoop today (deactivateAll s) jobs 0 0

/-- `get_all_jobs(db_path, active_only=True)` (`db.py` lines 63-84):
the active rows, ordered by `first_seen` descending. -/
def get_all_jobs (s : Store) : List JobRow :=
  (s.filter (fun r => r.is_active)).mergeSort (fun a b => decide (b.first_seen ≤ a.first_seen))

/-- `update_discovery_date_by_url` (`db.py` lines 103-129): if some row has
the url, set its `first_seen` and report `True`; otherwise leave the table
alone and report `False`. -/
def update_discovery_date_by_url (s : Store) (job_url : String) (new_date : Nat) : Store × Bool :=
  match s.find? (fun r => r.url == job_url) with
  | some _ => (s.map (fun r => if r.url == job_url then { r with first_seen := new_date } else r), true)
  | none => (s, false)

section BasicLemmas

theorem updFn_url (j : Job) (today : Nat) (r : JobRow) : (updFn j today r).url = r.url := by
  unfold updFn; split <;> rfl

theorem updFn_first_seen (j : Job) (today : Nat) (r : JobRow) :
    (updFn j today r).first_seen = r.first_seen := by
  unfold updFn; split <;> rfl

theorem urls_map_updFn (j : Job) (today : Nat) (st : Store) :
    urls (st.map (updFn j today)) = urls st := by
  simp only [urls, List.map_map]
  exact List.map_congr_left (fun r _ => updFn_url j today r)

theorem urls_append_newRow (j : Job) (today : Nat) (st : Store) :
    urls (st ++ [newRow j today]) = urls st ++ [j.url] := by
  simp [urls, newRow]

theorem mem_urls_iff {s : Store} {v : String} : v ∈ urls s ↔ ∃ r ∈ s, r.url = v := by
  simp [urls, List.mem_map, eq_comm]

theorem find_some_iff (st : Store) (v : String) :
    (st.find? (fun r => r.url == v)).isSome ↔ v ∈ urls st := by
  simp [List.find?_isSome, urls, List.mem_map]

theorem urls_deactivateAll (s : Store) : urls (deactivateAll s) = urls s := by
  simp [urls, deactivateAll, List.map_map]

end BasicLemmas

section LoopLemmas

theorem mem_candidateUrls_cons {j : Job} {rest : List Job} {v : String} :
    v ∈ candidateUrls (j :: rest) ↔ v = j.url ∨ v ∈ candidateUrls rest := by
  simp [candidateUrls, eq_comm]

/-- Characterisation of the urls present after the `save_jobs` loop:
the loop inserts exactly the candidate urls and deletes nothing. -/
theorem mem_urls_saveJobsLoop (today : Nat) (jobs : List Job) :
    ∀ (st : Store) (n u : Nat) (v : String),
      v ∈ urls (saveJobsLoop today st jobs n u).1 ↔ v ∈ urls st ∨ v ∈ candidateUrls jobs := by
  induction jobs with
  | nil => intro st n u v; simp [saveJobsLoop, candidateUrls]
  | cons j rest ih =>
    intro st n u v
    cases hf : st.find? (fun r => r.url == j.url) with
    | some r =>
      have hmem : j.url ∈ urls st := by
        rw [← find_some_iff, hf]; rfl
      have hv : v = j.url → v ∈ urls st := fun h => h ▸ hmem
      simp only [saveJobsLoop, hf]
      rw [ih, urls_map_updFn, mem_candidateUrls_cons]
      tauto
    | none =>
      simp only [saveJobsLoop, hf]
      rw [ih, urls_append_newRow, mem_candidateUrls_cons]
      simp only [List.mem_append, List.mem_singleton]
      tauto

/-- Characterisation of the active rows after the `save_jobs` loop:
a url has an active row iff it had one before the loop or it occurs in
the remaining candidates (the loop only ever activates rows). -/
theorem active_saveJobsLoop (today : Nat) (jobs : List Job) :
    ∀ (st : Store) (n u : Nat) (v : String),
      (∃ r ∈ (saveJobsLoop today st jobs n u).1, r.url = v ∧ r.is_active = true) ↔
        (∃ r ∈ st, r.url = v ∧ r.is_active = true) ∨ v ∈ candidateUrls jobs := by
  induction jobs with
  | nil => intro st n u v; simp [saveJobsLoop, candidateUrls]
  | cons j rest ih =>
    intro st n u v
    cases hf : st.find? (fun r => r.url == j.url) with
    | some r =>
      have hmem : j.url ∈ urls st := by
        rw [← find_some_iff, hf]; rfl
      have hstep : (∃ r ∈ st.map (updFn j today), r.url = v ∧ r.is_active = true) ↔
          ((∃ r ∈ st, r.url = v ∧ r.is_active = true) ∨ v = j.url) := by
        constructor
        · rintro ⟨r2, hr2, hurl, hact⟩
          obtain ⟨r0, hr0, rfl⟩ := List.mem_map.1 hr2
          by_cases h : r0.url = j.url
          · right
            rw [← hurl, updFn_url, h]
          · left
            have hupd : updFn j today r0 = r0 := by simp [updFn, h]
            exact ⟨r0, hr0, hupd ▸ hurl, hupd ▸ hact⟩
        · rintro (⟨r2, hr2, hurl, hact⟩ | rfl)
          · refine ⟨updFn j today r2, List.mem_map_of_mem _ hr2, ?_, ?_⟩
            · rw [updFn_url]; exact hurl
            · by_cases h : r2.url = j.url
              · simp [updFn, h]
              · simp [updFn, h]; exact hact
          · obtain ⟨r0, hr0, hurl0⟩ := mem_urls_iff.1 hmem
            refine ⟨updFn j today r0, List.mem_map_of_mem _ hr0, ?_, ?_⟩
            · rw [updFn_url]; exact hurl0
            · simp [updFn, hurl0]
      simp only [saveJobsLoop, hf]
      rw [ih, hstep, mem_candidateUrls_cons]
      exact or_assoc
    | none =>
      have hstep : (∃ r ∈ st ++ [newRow j today], r.url = v ∧ r.is_active = true) ↔
          ((∃ r ∈ st, r.url = v ∧ r.is_active = true) ∨ v = j.url) := by
        simp only [List.mem_append, List.mem_singleton]
        constructor
        · rintro ⟨r2, hr2 | rfl, hurl, hact⟩
          · exact Or.inl ⟨r2, hr2, hurl, hact⟩
          · right; rw [← hurl]; rfl
        · rintro (⟨r2, hr2, hurl, hact⟩ | rfl)
          · exact ⟨r2, Or.inl hr2, hurl, hact⟩
          · exact ⟨newRow j today, Or.inr rfl, rfl, rfl⟩
      simp only [saveJobsLoop, hf]
      rw [ih, hstep, mem_candidateUrls_cons]
      exact or_assoc

/-- A stored row whose url never occurs among the candidates survives the
loop untouched. -/
theorem untouched_mem_saveJobsLoop (today : Nat) (jobs : List Job) :
    ∀ (st : Store) (n u : Nat) (r : JobRow), r ∈ st → r.url ∉ candidateUrls jobs →
      r ∈ (saveJobsLoop today st jobs n u).1 := by
  induction jobs with
  | nil => intro st n u r hr _; simpa [saveJobsLoop] using hr
  | cons j rest ih =>
    intro st n u r hr hn
    rw [mem_candidateUrls_cons] at hn
    push_neg at hn
    cases hf : st.find? (fun r => r.url == j.url) with
    | some r2 =>
      simp only [saveJobsLoop, hf]
      have hupd : updFn j today r = r := by simp [updFn, hn.1]
      exact ih _ n (u + 1) r (hupd ▸ List.mem_map_of_mem _ hr) hn.2
    | none =>
      simp only [saveJobsLoop, hf]
      exact ih _ (n + 1) u r (List.mem_append_left _ hr) hn.2

/-- Conversely, a row of the loop's output whose url never occurs among
the candidates was already in the input state, unchanged. -/
theorem mem_saveJobsLoop_untouched (today : Nat) (jobs : List Job) :
    ∀ (st : Store) (n u : Nat) (r : JobRow), r ∈ (saveJobsLoop today st jobs n u).1 →
      r.url ∉ candidateUrls jobs → r ∈ st := by
  induction jobs with
  | nil => intro st n u r hr _; simpa [saveJobsLoop] using hr
  | cons j rest ih =>
    intro st n u r hr hn
    rw [mem_candidateUrls_cons] at hn
    push_neg at hn
    cases hf : st.find? (fun r => r.url == j.url) with
    | some r2 =>
      simp only [saveJobsLoop, hf] at hr
      have hr3 := ih _ n (u + 1) r hr hn.2
      obtain ⟨r0, hr0, heq⟩ := List.mem_map.1 hr3
      by_cases h : r0.url = j.url
      · exfalso
        apply hn.1
        rw [← heq, updFn_url, h]
      · have hupd : updFn j today r0 = r0 := by simp [updFn, h]
        rw [← heq, hupd]; exact hr0
    | none =>
      simp only [saveJobsLoop, hf] at hr
      have hr3 := ih _ (n + 1) u r hr hn.2
      rcases List.mem_append.1 hr3 with h | h
      · exact h
      · exfalso
        apply hn.1
        rw [List.mem_singleton.1 h]; rfl

/-- The name of the last candidate of the batch carrying the url `u`,
if any: the loop of `save_jobs` writes candidate names in batch order,
so this is the name the row for `u` ends up with. -/
def lastNameFor (u : String) : List Job → Option String
  | [] => none
  | j :: rest =>
    if j.url = u then some ((lastNameFor u rest).getD j.name) else lastNameFor u rest

theorem lastNameFor_isSome {u : String} {jobs : List Job} (h : u ∈ candidateUrls jobs) :
    (lastNameFor u jobs).isSome := by
  induction jobs with
  | nil => simp [candidateUrls] at h
  | cons j rest ih =>
    rw [mem_candidateUrls_cons] at h
    by_cases hj : j.url = u
    · simp [lastNameFor, hj]
    · rcases h with h | h
      · exact absurd h.symm hj
      · simpa [lastNameFor, hj] using ih h

theorem lastNameFor_cons_mem {u : String} {j : Job} {rest : List Job}
    (h : u ∈ candidateUrls rest) : lastNameFor u (j :: rest) = lastNameFor u rest := by
  obtain ⟨x, hx⟩ := Option.isSome_iff_exists.1 (lastNameFor_isSome h)
  by_cases hj : j.url = u
  · simp [lastNameFor, hj, hx]
  · simp [lastNameFor, hj]

theorem lastNameFor_eq_none {u : String} {jobs : List Job} (h : u ∉ candidateUrls jobs) :
    lastNameFor u jobs = none := by
  induction jobs with
  | nil => rfl
  | cons j rest ih =>
    rw [mem_candidateUrls_cons] at h
    push_neg at h
    have hj : ¬j.url = u := fun hj => h.1 hj.symm
    simp [lastNameFor, hj, ih h.2]

theorem lastNameFor_cons_last {u : String} {j : Job} {rest : List Job}
    (hj : j.url = u) (h : u ∉ candidateUrls rest) :
    lastNameFor u (j :: rest) = some j.name := by
  simp [lastNameFor, hj, lastNameFor_eq_none h]

/-- Every output row whose url occurs among the candidates is active,
carries `last_seen = today`, and carries the name of the last candidate
of the batch with that url. -/
theorem candidate_rows_saveJobsLoop (today : Nat) (jobs : List Job) :
    ∀ (st : Store) (n u : Nat) (r : JobRow), r ∈ (saveJobsLoop today st jobs n u).1 →
      r.url ∈ candidateUrls jobs →
      r.is_active = true ∧ r.last_seen = today ∧ some r.name = lastNameFor r.url jobs := by
  induction jobs with
  | nil => intro st n u r _ h; simp [candidateUrls] at h
  | cons j rest ih =>
    intro st n u r hr hcu
    by_cases hrest : r.url ∈ candidateUrls rest
    · rw [lastNameFor_cons_mem hrest]
      cases hf : st.find? (fun r => r.url == j.url) with
      | some r2 =>
        simp only [saveJobsLoop, hf] at hr
        exact ih _ n (u + 1) r hr hrest
      | none =>
        simp only [saveJobsLoop, hf] at hr
        exact ih _ (n + 1) u r hr hrest
    · have hju : r.url = j.url := by
        rcases mem_candidateUrls_cons.1 hcu with h | h
        · exact h
        · exact absurd h hrest
      rw [lastNameFor_cons_last hju.symm hrest]
      cases hf : st.find? (fun r => r.url == j.url) with
      | some r2 =>
        simp only [saveJobsLoop, hf] at hr
        have hst : r ∈ st.map (updFn j today) :=
          mem_saveJobsLoop_untouched today rest _ n (u + 1) r hr hrest
        obtain ⟨r0, hr0, heq⟩ := List.mem_map.1 hst
        by_cases h : r0.url = j.url
        · rw [← heq]
          simp [updFn, h]
        · exfalso
          have hupd : updFn j today r0 = r0 := by simp [updFn, h]
          rw [← heq, hupd] at hju
          exact h hju
      | none =>
        simp only [saveJobsLoop, hf] at hr
        have hst : r ∈ st ++ [newRow j today] :=
          mem_saveJobsLoop_untouched today rest _ (n + 1) u r hr hrest
        rcases List.mem_append.1 hst with h | h
        · exfalso
          have := List.find?_eq_none.1 hf r h
          simp [hju] at this
        · rw [List.mem_singleton.1 h]
          exact ⟨rfl, rfl, rfl⟩

/-- Every output row whose url was already stored before the loop keeps
the `first_seen` of some input row with that url. -/
theorem old_url_first_seen_saveJobsLoop (today : Nat) (jobs : List Job) :
    ∀ (st : Store) (n u : Nat) (r : JobRow), r ∈ (saveJobsLoop today st jobs n u).1 →
      r.url ∈ urls st → ∃ r0 ∈ st, r0.url = r.url ∧ r0.first_seen = r.first_seen := by
  induction jobs with
  | nil =>
    intro st n u r hr _
    exact ⟨r, by simpa [saveJobsLoop] using hr, rfl, rfl⟩
  | cons j rest ih =>
    intro st n u r hr hurl
    cases hf : st.find? (fun r => r.url == j.url) with
    | some r2 =>
      simp only [saveJobsLoop, hf] at hr
      have hurl2 : r.url ∈ urls (st.map (updFn j today)) := by rwa [urls_map_updFn]
      obtain ⟨r1, hr1, hu1, hfs1⟩ := ih _ n (u + 1) r hr hurl2
      obtain ⟨r0, hr0, heq⟩ := List.mem_map.1 hr1
      refine ⟨r0, hr0, ?_, ?_⟩
      · rw [← hu1, ← heq, updFn_url]
      · rw [← hfs1, ← heq, updFn_first_seen]
    | none =>
      simp only [saveJobsLoop, hf] at hr
      have hurl2 : r.url ∈ urls (st ++ [newRow j today]) := by
        rw [urls_append_newRow]
        exact List.mem_append_left _ hurl
      obtain ⟨r1, hr1, hu1, hfs1⟩ := ih _ (n + 1) u r hr hurl2
      rcases List.mem_append.1 hr1 with h | h
      · exact ⟨r1, h, hu1, hfs1⟩
      · exfalso
        rw [List.mem_singleton.1 h] at hu1
        have hju : j.url ∈ urls st := by rw [← hu1] at hurl; exact hurl
        obtain ⟨r0, hr0, hu0⟩ := mem_urls_iff.1 hju
        have := List.find?_eq_none.1 hf r0 hr0
        simp [hu0] at this

/-- Every output row whose url was not stored before the loop is a fresh
insertion: its `first_seen` is `today` and its url is a candidate url. -/
theorem new_url_saveJobsLoop (today : Nat) (jobs : List Job) :
    ∀ (st : Store) (n u : Nat) (r : JobRow), r ∈ (saveJobsLoop today st jobs n u).1 →
      r.url ∉ urls st → r.first_seen = today ∧ r.url ∈ candidateUrls jobs := by
  induction jobs with
  | nil =>
    intro st n u r hr hurl
    exfalso
    exact hurl (mem_urls_iff.2 ⟨r, by simpa [saveJobsLoop] using hr, rfl⟩)
  | cons j rest ih =>
    intro st n u r hr hurl
    cases hf : st.find? (fun r => r.url == j.url) with
    | some r2 =>
      simp only [saveJobsLoop, hf] at hr
      have hurl2 : r.url ∉ urls (st.map (updFn j today)) := by rwa [urls_map_updFn]
      obtain ⟨h1, h2⟩ := ih _ n (u + 1) r hr hurl2
      exact ⟨h1, mem_candidateUrls_cons.2 (Or.inr h2)⟩
    | none =>
      simp only [saveJobsLoop, hf] at hr
      by_cases hj : r.url = j.url
      · have hurl2 : r.url ∈ urls (st ++ [newRow j today]) := by
          rw [urls_append_newRow, hj]
          exact List.mem_append_right _ (List.mem_singleton.2 rfl)
        obtain ⟨r1, hr1, hu1, hfs1⟩ := old_url_first_seen_saveJobsLoop today rest _ (n + 1) u r hr hurl2
        rcases List.mem_append.1 hr1 with h | h
        · exfalso
          apply hurl
          exact mem_urls_iff.2 ⟨r1, h, hu1⟩
        · rw [List.mem_singleton.1 h] at hfs1
          exact ⟨hfs1.symm, mem_candidateUrls_cons.2 (Or.inl hj)⟩
      · have hurl2 : r.url ∉ urls (st ++ [newRow j today]) := by
          rw [urls_append_newRow]
          intro hmem
          rcases List.mem_append.1 hmem with h | h
          · exact hurl h
          · exact hj (List.mem_singleton.1 h)
        obtain ⟨h1, h2⟩ := ih _ (n + 1) u r hr hurl2
        exact ⟨h1, mem_candidateUrls_cons.2 (Or.inr h2)⟩

/-- The loop preserves the one-row-per-url invariant. -/
theorem nodup_urls_saveJobsLoop (today : Nat) (jobs : List Job) :
    ∀ (st : Store) (n u : Nat), (urls st).Nodup →
      (urls (saveJobsLoop today st jobs n u).1).Nodup := by
  induction jobs with
  | nil => intro st n u h; simpa [saveJobsLoop] using h
  | cons j rest ih =>
    intro st n u h
    cases hf : st.find? (fun r => r.url == j.url) with
    | some r2 =>
      simp only [saveJobsLoop, hf]
      exact ih _ n (u + 1) (by rwa [urls_map_updFn])
    | none =>
      simp only [saveJobsLoop, hf]
      apply ih _ (n + 1) u
      rw [urls_append_newRow]
      have hnot : j.url ∉ urls st := by
        intro hmem
        obtain ⟨r0, hr0, hu0⟩ := mem_urls_iff.1 hmem
        have := List.find?_eq_none.1 hf r0 hr0
        simp [hu0] at this
      simp [List.nodup_append, h, hnot]

theorem card_insert_sdiff {α : Type} [DecidableEq α] (a : α) (T S : Finset α) (h : a ∉ S) :
    (insert a T \ S).card = (T \ insert a S).card + 1 := by
  have hst : insert a T \ S = insert a (T \ insert a S) := by
    ext x
    simp only [Finset.mem_sdiff, Finset.mem_insert]
    by_cases hx : x = a
    · simp [hx, h]
    · simp [hx]
  rw [hst, Finset.card_insert_of_not_mem]
  simp

/-- The counters of the loop: the `new_jobs` counter counts exactly the
distinct candidate urls absent from the input state, and together the two
counters count every candidate once. -/
theorem counts_saveJobsLoop (today : Nat) (jobs : List Job) :
    ∀ (st : Store) (n u : Nat),
      (saveJobsLoop today st jobs n u).2.1 =
        n + ((candidateUrls jobs).toFinset \ (urls st).toFinset).card ∧
      (saveJobsLoop today st jobs n u).2.1 + (saveJobsLoop today st jobs n u).2.2 =
        n + u + jobs.length := by
  induction jobs with
  | nil => intro st n u; simp [saveJobsLoop, candidateUrls]
  | cons j rest ih =>
    intro st n u
    cases hf : st.find? (fun r => r.url == j.url) with
    | some r2 =>
      have hmem : j.url ∈ (urls st).toFinset := by
        rw [List.mem_toFinset, ← find_some_iff, hf]; rfl
      have hcu : (candidateUrls (j :: rest)).toFinset = insert j.url (candidateUrls rest).toFinset := by
        simp [candidateUrls]
      simp only [saveJobsLoop, hf]
      obtain ⟨ih1, ih2⟩ := ih (st.map (updFn j today)) n (u + 1)
      rw [urls_map_updFn] at ih1
      constructor
      · rw [ih1, hcu, Finset.insert_sdiff_of_mem _ hmem]
      · rw [ih2]
        simp [Nat.add_assoc, Nat.add_comm, Nat.add_left_comm]
    | none =>
      have hnot : j.url ∉ (urls st).toFinset := by
        rw [List.mem_toFinset]
        intro hmem
        obtain ⟨r0, hr0, hu0⟩ := mem_urls_iff.1 hmem
        have := List.find?_eq_none.1 hf r0 hr0
        simp [hu0] at this
      have hcu : (candidateUrls (j :: rest)).toFinset = insert j.url (candidateUrls rest).toFinset := by
        simp [candidateUrls]
      have hurls : (urls (st ++ [newRow j today])).toFinset = insert j.url (urls st).toFinset := by
        rw [urls_append_newRow]
        simp [List.toFinset_append, Finset.insert_eq, Finset.union_comm]
      simp only [saveJobsLoop, hf]
      obtain ⟨ih1, ih2⟩ := ih (st ++ [newRow j today]) (n + 1) u
      constructor
      · rw [ih1, hurls, hcu, card_insert_sdiff _ _ _ hnot]
        omega
      · rw [ih2]
        simp [Nat.add_assoc, Nat.add_comm, Nat.add_left_comm]

end LoopLemmas

section SaveJobsLemmas

theorem deactivateAll_inactive (s : Store) : ∀ r ∈ deactivateAll s, r.is_active = false := by
  intro r hr
  obtain ⟨r0, _, rfl⟩ := List.mem_map.1 hr
  rfl

/-- After `save_jobs` a url has an active row iff it occurs in the batch. -/
theorem active_save_jobs (s : Store) (jobs : List Job) (today : Nat) (v : String) :
    (∃ r ∈ (save_jobs s jobs today).1, r.url = v ∧ r.is_active = true) ↔
      v ∈ candidateUrls jobs := by
  simp only [save_jobs]
  rw [active_saveJobsLoop]
  constructor
  · rintro (⟨r, hr, _, hact⟩ | h)
    · simp [deactivateAll_inactive s r hr] at hact
    · exact h
  · exact Or.inr

theorem mem_urls_save_jobs (s : Store) (jobs : List Job) (today : Nat) (v : String) :
    v ∈ urls (save_jobs s jobs today).1 ↔ v ∈ urls s ∨ v ∈ candidateUrls jobs := by
  simp only [save_jobs]
  rw [mem_urls_saveJobsLoop, urls_deactivateAll]

theorem counts_save_jobs (s : Store) (jobs : List Job) (today : Nat) :
    (save_jobs s jobs today).2.1 =
      ((candidateUrls jobs).toFinset \ (urls s).toFinset).card ∧
    (save_jobs s jobs today).2.1 + (save_jobs s jobs today).2.2 = jobs.length := by
  simp only [save_jobs]
  have h := counts_saveJobsLoop today jobs (deactivateAll s) 0 0
  rw [urls_deactivateAll] at h
  simpa using h

theorem nodup_urls_save_jobs (s : Store) (jobs : List Job) (today : Nat)
    (h : (urls s).Nodup) : (urls (save_jobs s jobs today).1).Nodup := by
  simp only [save_jobs]
  exact nodup_urls_saveJobsLoop today jobs _ 0 0 (by rwa [urls_deactivateAll])

theorem candidate_rows_save_jobs (s : Store) (jobs : List Job) (today : Nat) (r : JobRow)
    (hr : r ∈ (save_jobs s jobs today).1) (hcu : r.url ∈ candidateUrls jobs) :
    r.is_active = true ∧ r.last_seen = today ∧ some r.name = lastNameFor r.url jobs :=
  candidate_rows_saveJobsLoop today jobs _ 0 0 r hr hcu

theorem old_url_save_jobs (s : Store) (jobs : List Job) (today : Nat) (r : JobRow)
    (hr : r ∈ (save_jobs s jobs today).1) (hurl : r.url ∈ urls s) :
    ∃ r0 ∈ s, r0.url = r.url ∧ r0.first_seen = r.first_seen := by
  have h := old_url_first_seen_saveJobsLoop today jobs (deactivateAll s) 0 0 r hr
    (by rwa [urls_deactivateAll])
  obtain ⟨r1, hr1, hu, hfs⟩ := h
  obtain ⟨r0, hr0, rfl⟩ := List.mem_map.1 hr1
  exact ⟨r0, hr0, hu, hfs⟩

theorem new_url_save_jobs (s : Store) (jobs : List Job) (today : Nat) (r : JobRow)
    (hr : r ∈ (save_jobs s jobs today).1) (hurl : r.url ∉ urls s) :
    r.first_seen = today ∧ r.url ∈ candidateUrls jobs :=
  new_url_saveJobsLoop today jobs _ 0 0 r hr (by rwa [urls_deactivateAll])

theorem lastNameFor_exists_mem {u : String} {jobs : List Job} {nm : String}
    (h : lastNameFor u jobs = some nm) : ∃ j ∈ jobs, j.url = u ∧ j.name = nm := by
  induction jobs with
  | nil => simp [lastNameFor] at h
  | cons j rest ih =>
    by_cases hj : j.url = u
    · rw [lastNameFor, if_pos hj] at h
      cases hrest : lastNameFor u rest with
      | none =>
        rw [hrest] at h
        simp only [Option.getD_none, Option.some.injEq] at h
        exact ⟨j, List.mem_cons_self j rest, hj, h⟩
      | some x =>
        rw [hrest] at h
        simp only [Option.getD_some, Option.some.injEq] at h
        obtain ⟨j2, hj2, hu2, hn2⟩ := ih (by rw [hrest, h])
        exact ⟨j2, List.mem_cons_of_mem j hj2, hu2, hn2⟩
    · rw [lastNameFor, if_neg hj] at h
      obtain ⟨j2, hj2, hu2, hn2⟩ := ih h
      exact ⟨j2, List.mem_cons_of_mem j hj2, hu2, hn2⟩

theorem mem_get_all_jobs {s : Store} {r : JobRow} :
    r ∈ get_all_jobs s ↔ r ∈ s ∧ r.is_active = true := by
  simp [get_all_jobs, List.mem_mergeSort, List.mem_filter]

end SaveJobsLemmas

/-- C1: after `save_jobs` with candidate batch `jobs`, the urls with an
active row are exactly the candidate urls; every stored row whose url is
not among the candidates ends up inactive and its url is absent from
`get_all_jobs` (`list_active`); every candidate url absent from the prior
store gets a row with `first_seen = last_seen = today`; every candidate
url present in the prior store gets an active row with `last_seen = today`
whose name comes from a candidate with that url; `new_jobs` counts the
distinct candidate urls absent from the prior store, and the two counters
together count every candidate. -/
theorem save_jobs_full_replacement (s : Store) (jobs : List Job) (today : Nat) :
    (∀ v, (∃ r ∈ (save_jobs s jobs today).1, r.url = v ∧ r.is_active = true) ↔
      v ∈ candidateUrls jobs) ∧
    (∀ r ∈ s, r.url ∉ candidateUrls jobs →
      (∀ r2 ∈ (save_jobs s jobs today).1, r2.url = r.url → r2.is_active = false) ∧
      r.url ∉ (get_all_jobs (save_jobs s jobs today).1).map (·.url)) ∧
    (∀ v ∈ candidateUrls jobs, v ∉ urls s →
      ∃ r ∈ (save_jobs s jobs today).1, r.url = v ∧ r.first_seen = today ∧
        r.last_seen = today ∧ r.is_active = true) ∧
    (∀ v ∈ candidateUrls jobs, v ∈ urls s →
      ∃ r ∈ (save_jobs s jobs today).1, r.url = v ∧ r.last_seen = today ∧
        r.is_active = true ∧ ∃ j ∈ jobs, j.url = v ∧ j.name = r.name) ∧
    (save_jobs s jobs today).2.1 =
      ((candidateUrls jobs).toFinset \ (urls s).toFinset).card ∧
    (save_jobs s jobs today).2.1 + (save_jobs s jobs today).2.2 = jobs.length := by
  refine ⟨fun v => active_save_jobs s jobs today v, ?_, ?_, ?_,
    (counts_save_jobs s jobs today).1, (counts_save_jobs s jobs today).2⟩
  · intro r _ hn
    constructor
    · intro r2 hr2 hurl
      cases hact : r2.is_active with
      | false => rfl
      | true =>
        exfalso
        exact hn ((active_save_jobs s jobs today r.url).1 ⟨r2, hr2, hurl, hact⟩)
    · intro hmem
      obtain ⟨r2, hr2, hurl⟩ := List.mem_map.1 hmem
      obtain ⟨hr2s, hact⟩ := mem_get_all_jobs.1 hr2
      exact hn ((active_save_jobs s jobs today r.url).1 ⟨r2, hr2s, hurl, hact⟩)
  · intro v hv hnot
    obtain ⟨r, hr, hurl, hact⟩ := (active_save_jobs s jobs today v).2 hv
    have hfs := new_url_save_jobs s jobs today r hr (hurl ▸ hnot)
    have hrow := candidate_rows_save_jobs s jobs today r hr (hurl ▸ hv)
    exact ⟨r, hr, hurl, hfs.1, hrow.2.1, hact⟩
  · intro v hv hold
    obtain ⟨r, hr, hurl, hact⟩ := (active_save_jobs s jobs today v).2 hv
    have hrow := candidate_rows_save_jobs s jobs today r hr (hurl ▸ hv)
    obtain ⟨j, hj, hju, hjn⟩ := lastNameFor_exists_mem (hurl ▸ hrow.2.2.symm)
    exact ⟨r, hr, hurl, hrow.2.1, hact, j, hj, hju, hjn⟩

/-- Closed instance of C1 at a concrete store and batch. -/
theorem save_jobs_full_replacement_witness :
    (∀ v, (∃ r ∈ (save_jobs [⟨"Old", "/b", 1, 1, true⟩] [⟨"Engineer", "/a"⟩] 2).1,
        r.url = v ∧ r.is_active = true) ↔ v ∈ candidateUrls [⟨"Engineer", "/a"⟩]) ∧
    (∀ r ∈ [(⟨"Old", "/b", 1, 1, true⟩ : JobRow)], r.url ∉ candidateUrls [⟨"Engineer", "/a"⟩] →
      (∀ r2 ∈ (save_jobs [⟨"Old", "/b", 1, 1, true⟩] [⟨"Engineer", "/a"⟩] 2).1,
        r2.url = r.url → r2.is_active = false) ∧
      r.url ∉ (get_all_jobs (save_jobs [⟨"Old", "/b", 1, 1, true⟩] [⟨"Engineer", "/a"⟩] 2).1).map (·.url)) ∧
    (∀ v ∈ candidateUrls [⟨"Engineer", "/a"⟩], v ∉ urls [⟨"Old", "/b", 1, 1, true⟩] →
      ∃ r ∈ (save_jobs [⟨"Old", "/b", 1, 1, true⟩] [⟨"Engineer", "/a"⟩] 2).1, r.url = v ∧
        r.first_seen = 2 ∧ r.last_seen = 2 ∧ r.is_active = true) ∧
    (∀ v ∈ candidateUrls [⟨"Engineer", "/a"⟩], v ∈ urls [⟨"Old", "/b", 1, 1, true⟩] →
      ∃ r ∈ (save_jobs [⟨"Old", "/b", 1, 1, true⟩] [⟨"Engineer", "/a"⟩] 2).1, r.url = v ∧
        r.last_seen = 2 ∧ r.is_active = true ∧
        ∃ j ∈ [(⟨"Engineer", "/a"⟩ : Job)], j.url = v ∧ j.name = r.name) ∧
    (save_jobs [⟨"Old", "/b", 1, 1, true⟩] [⟨"Engineer", "/a"⟩] 2).2.1 =
      ((candidateUrls [⟨"Engineer", "/a"⟩]).toFinset \ (urls [⟨"Old", "/b", 1, 1, true⟩]).toFinset).card ∧
    (save_jobs [⟨"Old", "/b", 1, 1, true⟩] [⟨"Engineer", "/a"⟩] 2).2.1 +
      (save_jobs [⟨"Old", "/b", 1, 1, true⟩] [⟨"Engineer", "/a"⟩] 2).2.2 = 1 :=
  save_jobs_full_replacement [⟨"Old", "/b", 1, 1, true⟩] [⟨"Engineer", "/a"⟩] 2

/-- C5: running `save_jobs` twice with the same batch yields `new_jobs = 0`
on the second run and the same active urls after both runs. -/
theorem save_jobs_idempotent (s : Store) (jobs : List Job) (today : Nat) :
    (save_jobs (save_jobs s jobs today).1 jobs today).2.1 = 0 ∧
    ∀ v, (∃ r ∈ (save_jobs (save_jobs s jobs today).1 jobs today).1,
        r.url = v ∧ r.is_active = true) ↔
      ∃ r ∈ (save_jobs s jobs today).1, r.url = v ∧ r.is_active = true := by
  constructor
  · rw [(counts_save_jobs (save_jobs s jobs today).1 jobs today).1]
    have hsub : (candidateUrls jobs).toFinset ⊆ (urls (save_jobs s jobs today).1).toFinset := by
      intro v hv
      rw [List.mem_toFinset] at hv ⊢
      exact (mem_urls_save_jobs s jobs today v).2 (Or.inr hv)
    rw [Finset.sdiff_eq_empty_iff_subset.2 hsub, Finset.card_empty]
  · intro v
    rw [active_save_jobs, active_save_jobs]

/-- Closed instance of C5 at a concrete store and batch. -/
theorem save_jobs_idempotent_witness :
    (save_jobs (save_jobs [⟨"Old", "/b", 1, 1, true⟩] [⟨"Engineer", "/a"⟩] 2).1
      [⟨"Engineer", "/a"⟩] 2).2.1 = 0 ∧
    ∀ v, (∃ r ∈ (save_jobs (save_jobs [⟨"Old", "/b", 1, 1, true⟩] [⟨"Engineer", "/a"⟩] 2).1
        [⟨"Engineer", "/a"⟩] 2).1, r.url = v ∧ r.is_active = true) ↔
      ∃ r ∈ (save_jobs [⟨"Old", "/b", 1, 1, true⟩] [⟨"Engineer", "/a"⟩] 2).1,
        r.url = v ∧ r.is_active = true :=
  save_jobs_idempotent [⟨"Old", "/b", 1, 1, true⟩] [⟨"Engineer", "/a"⟩] 2

/-- C6: an inactive stored posting whose url reappears in a batch keeps its
original `first_seen`, gets `last_seen = today` and `is_active = true`, and
the one-row-per-url invariant is preserved (no second row is created). -/
theorem save_jobs_reappearance (s : Store) (jobs : List Job) (today : Nat) (r0 : JobRow)
    (hN : (urls s).Nodup) (hmem : r0 ∈ s) (_hinact : r0.is_active = false)
    (hcu : r0.url ∈ candidateUrls jobs) :
    (urls (save_jobs s jobs today).1).Nodup ∧
    ∃ r ∈ (save_jobs s jobs today).1, r.url = r0.url ∧ r.first_seen = r0.first_seen ∧
      r.last_seen = today ∧ r.is_active = true := by
  refine ⟨nodup_urls_save_jobs s jobs today hN, ?_⟩
  obtain ⟨r, hr, hurl, hact⟩ := (active_save_jobs s jobs today r0.url).2 hcu
  have hrow := candidate_rows_save_jobs s jobs today r hr (hurl ▸ hcu)
  obtain ⟨r1, hr1, hu1, hfs1⟩ :=
    old_url_save_jobs s jobs today r hr (hurl ▸ mem_urls_iff.2 ⟨r0, hmem, rfl⟩)
  have heq : r1 = r0 := List.inj_on_of_nodup_map hN hr1 hmem (by rw [hu1, hurl])
  refine ⟨r, hr, hurl, ?_, hrow.2.1, hact⟩
  rw [← hfs1, heq]

/-- Closed instance of C6: an inactive row for url `u` reactivated by a
later batch. -/
theorem save_jobs_reappearance_witness :
    (urls (save_jobs [⟨"Old", "u", 1, 2, false⟩] [⟨"New", "u"⟩] 5).1).Nodup ∧
    ∃ r ∈ (save_jobs [⟨"Old", "u", 1, 2, false⟩] [⟨"New", "u"⟩] 5).1,
      r.url = "u" ∧ r.first_seen = 1 ∧ r.last_seen = 5 ∧ r.is_active = true :=
  save_jobs_reappearance [⟨"Old", "u", 1, 2, false⟩] [⟨"New", "u"⟩] 5
    ⟨"Old", "u", 1, 2, false⟩ (by decide) (by decide) (by decide) (by decide)

/-- C7: `save_jobs` on the empty batch succeeds, deactivates every row
and returns both counters zero. -/
theorem save_jobs_empty_batch (s : Store) (today : Nat) :
    save_jobs s [] today = (deactivateAll s, 0, 0) ∧
    (∀ r ∈ (save_jobs s [] today).1, r.is_active = false) ∧
    (save_jobs s [] today).2.1 = 0 ∧ (save_jobs s [] today).2.2 = 0 := by
  refine ⟨rfl, ?_, rfl, rfl⟩
  intro r hr
  exact deactivateAll_inactive s r hr

/-- Closed instance of C7 at a concrete store. -/
theorem save_jobs_empty_batch_witness :
    save_jobs [⟨"Old", "u", 1, 2, true⟩] [] 5 = (deactivateAll [⟨"Old", "u", 1, 2, true⟩], 0, 0) ∧
    (∀ r ∈ (save_jobs [⟨"Old", "u", 1, 2, true⟩] [] 5).1, r.is_active = false) ∧
    (save_jobs [⟨"Old", "u", 1, 2, true⟩] [] 5).2.1 = 0 ∧
    (save_jobs [⟨"Old", "u", 1, 2, true⟩] [] 5).2.2 = 0 :=
  save_jobs_empty_batch [⟨"Old", "u", 1, 2, true⟩] 5

theorem length_filter_url (l : Store) (u : String) :
    (l.filter (fun r => r.url == u)).length = (urls l).count u := by
  induction l with
  | nil => rfl
  | cons r rest ih =>
    simp only [List.filter_cons, urls, List.map_cons, List.count_cons] at *
    by_cases h : r.url = u
    · simp [h, ih]
    · simp [h, ih]

/-- C8: if one batch carries the same url twice (with different names),
`save_jobs` keeps exactly one row for that url and that row carries the
name of the last candidate of the batch with that url. -/
theorem save_jobs_duplicate_url (s : Store) (jobs : List Job) (today : Nat) (u : String)
    (hN : (urls s).Nodup) (c1 c2 : Job) (h1 : c1 ∈ jobs) (_h2 : c2 ∈ jobs)
    (hu1 : c1.url = u) (_hu2 : c2.url = u) (_hne : c1.name ≠ c2.name) :
    ((save_jobs s jobs today).1.filter (fun r => r.url == u)).length = 1 ∧
    ∀ r ∈ (save_jobs s jobs today).1, r.url = u → some r.name = lastNameFor u jobs := by
  have hcu : u ∈ candidateUrls jobs := by
    rw [← hu1]
    exact List.mem_map_of_mem _ h1
  constructor
  · rw [length_filter_url]
    exact List.count_eq_one_of_mem (nodup_urls_save_jobs s jobs today hN)
      ((mem_urls_save_jobs s jobs today u).2 (Or.inr hcu))
  · intro r hr hurl
    have h := (candidate_rows_save_jobs s jobs today r hr (hurl ▸ hcu)).2.2
    rwa [hurl] at h

/-- Closed instance of C8: a batch with two same-url candidates, the
second name winning. -/
theorem save_jobs_duplicate_url_witness :
    ((save_jobs [] [⟨"First", "u"⟩, ⟨"Second", "u"⟩] 1).1.filter (fun r => r.url == "u")).length = 1 ∧
    ∀ r ∈ (save_jobs [] [⟨"First", "u"⟩, ⟨"Second", "u"⟩] 1).1, r.url = "u" →
      some r.name = lastNameFor "u" [⟨"First", "u"⟩, ⟨"Second", "u"⟩] :=
  save_jobs_duplicate_url [] [⟨"First", "u"⟩, ⟨"Second", "u"⟩] 1 "u" (by decide)
    ⟨"First", "u"⟩ ⟨"Second", "u"⟩ (by decide) (by decide) rfl rfl (by decide)

/-- C9: `update_discovery_date_by_url` reports failure and leaves the store
untouched when no row has the url; when some row has the url it reports
success, sets that row's `first_seen` to the given date, and leaves every
other row unchanged. -/
theorem update_discovery_date_spec (s : Store) (job_url : String) (d : Nat) :
    (job_url ∉ urls s → update_discovery_date_by_url s job_url d = (s, false)) ∧
    (job_url ∈ urls s →
      (update_discovery_date_by_url s job_url d).2 = true ∧
      (∀ r ∈ (update_discovery_date_by_url s job_url d).1, r.url = job_url → r.first_seen = d) ∧
      ∀ r ∈ s, r.url ≠ job_url → r ∈ (update_discovery_date_by_url s job_url d).1) := by
  constructor
  · intro h
    have hf : s.find? (fun r => r.url == job_url) = none := by
      rw [← Option.not_isSome_iff_eq_none, find_some_iff]
      exact h
    simp [update_discovery_date_by_url, hf]
  · intro h
    obtain ⟨r2, hr2⟩ := Option.isSome_iff_exists.1 ((find_some_iff s job_url).2 h)
    refine ⟨?_, ?_, ?_⟩
    · simp [update_discovery_date_by_url, hr2]
    · intro r hr hurl
      simp only [update_discovery_date_by_url, hr2] at hr
      obtain ⟨r0, _, heq⟩ := List.mem_map.1 hr
      by_cases hc : r0.url = job_url
      · rw [← heq]
        simp [hc]
      · exfalso
        have hid : (if r0.url == job_url then { r0 with first_seen := d } else r0) = r0 := by
          simp [hc]
        rw [← heq, hid] at hurl
        exact hc hurl
    · intro r hr hne
      simp only [update_discovery_date_by_url, hr2]
      have hid : (if r.url == job_url then { r with first_seen := d } else r) = r := by
        simp [hne]
      rw [← hid]
      exact List.mem_map_of_mem _ hr

/-- Closed instance of C9: failure on an unknown url, success on a stored
one. -/
theorem update_discovery_date_spec_witness :
    update_discovery_date_by_url [] "u" 7 = ([], false) ∧
    ((update_discovery_date_by_url [⟨"A", "u", 3, 4, true⟩] "u" 7).2 = true ∧
      (∀ r ∈ (update_discovery_date_by_url [⟨"A", "u", 3, 4, true⟩] "u" 7).1,
        r.url = "u" → r.first_seen = 7) ∧
      ∀ r ∈ [(⟨"A", "u", 3, 4, true⟩ : JobRow)], r.url ≠ "u" →
        r ∈ (update_discovery_date_by_url [⟨"A", "u", 3, 4, true⟩] "u" 7).1) :=
  ⟨(update_discovery_date_spec [] "u" 7).1 (by decide),
   (update_discovery_date_spec [⟨"A", "u", 3, 4, true⟩] "u" 7).2 (by decide)⟩

/-! Notification layer (`telegram_bot.py`), with the Telegram channel
modelled as a delivery oracle and the subscriber registry, the attempt
log and the delivery log as explicit state. -/

/-- The outcome of one `bot.send_message` call: success, or an exception
with its message text. -/
inductive DeliveryOutcome where
  | delivered
  | failed (reason : String)
  deriving DecidableEq

/-- `unsubscribe_user` (`db.py`): delete the row, report whether one was
deleted. -/
def unsubscribe_user (subs : List Int) (user_id : Int) : List Int × Bool :=
  (subs.filter (fun x => x != user_id), subs.contains user_id)

/-- `is_subscribed` (`db.py`). -/
def is_subscribed (subs : List Int) (user_id : Int) : Bool :=
  subs.contains user_id

/-- Contiguous-substring check over character lists (the semantics of
Python's `in` on strings). -/
def containsPattern (pat : List Char) : List Char → Bool
  | [] => pat.isEmpty
  | c :: rest => pat.isPrefixOf (c :: rest) || containsPattern pat rest

/-- The auto-unsubscribe heuristic of `send_message`
(`telegram_bot.py` lines 100-103): substring match of
`"bot was blocked"` or `"chat not found"` against the lowercased error
text, modelled at the character-list level. -/
def isPermanentReason (reason : String) : Bool :=
  let low := reason.data.map Char.toLower
  containsPattern "bot was blocked".data low || containsPattern "chat not found".data low

/-- The registry plus the observable effects of the notifier: which chat
ids were attempted and which actually received the message. -/
structure NotifyState where
  subscribers : List Int
  attempts : List Int
  deliveredTo : List Int
  deriving DecidableEq

/-- `send_message` (`telegram_bot.py` lines 75-105): one delivery attempt;
on failure whose text matches the heuristic, unsubscribe the recipient
before returning `False`. -/
def send_message (deliver : Int → DeliveryOutcome) (st : NotifyState) (chat_id : Int) :
    Bool × NotifyState :=
  match deliver chat_id with
  | DeliveryOutcome.delivered =>
    (true, { st with attempts := st.attempts ++ [chat_id],
                     deliveredTo := st.deliveredTo ++ [chat_id] })
  | DeliveryOutcome.failed reason =>
    if isPermanentReason reason then
      (false, { st with attempts := st.attempts ++ [chat_id],
                        subscribers := (unsubscribe_user st.subscribers chat_id).1 })
    else
      (false, { st with attempts := st.attempts ++ [chat_id] })

/-- The `for user_id in subscribers` loop of `send_bulk`, accumulating the
`successful_sends` / `failed_sends` counters. -/
def sendBulkLoop (deliver : Int → DeliveryOutcome) :
    NotifyState → List Int → Nat → Nat → (Nat × Nat) × NotifyState
  | st, [], s, f => ((s, f), st)
  | st, uid :: rest, s, f =>
    let res := send_message deliver st uid
    if res.1 then sendBulkLoop deliver res.2 rest (s + 1) f
    else sendBulkLoop deliver res.2 rest s (f + 1)

/-- `send_bulk` (`telegram_bot.py` lines 107-142): early return on an
empty recipient list, otherwise one `send_message` per recipient. -/
def send_bulk (deliver : Int → DeliveryOutcome) (st : NotifyState) (recipients : List Int) :
    (Nat × Nat) × NotifyState :=
  if recipients.isEmpty then ((0, 0), st)
  else sendBulkLoop deliver st recipients 0 0

/-- The four message templates a cycle can produce
(`notify_subscribers_daily_update` and `notify_subscribers_error`). -/
inductive Template where
  | newJobsAlert
  | noNewJobs
  | noJobsFound
  | checkError
  deriving DecidableEq

/-- `notify_subscribers_daily_update` (`telegram_bot.py` lines 265-311):
early return when there are no subscribers; otherwise pick the template
from the counts and the `no_jobs_found` flag and fan the message out. -/
def notify_subscribers_daily_update (deliver : Int → DeliveryOutcome) (st : NotifyState)
    (new_jobs_count _updated_jobs_count : Nat) (no_jobs_found : Bool) :
    Option Template × NotifyState :=
  if st.subscribers.isEmpty then (none, st)
  else
    let t := if no_jobs_found then Template.noJobsFound
      else if new_jobs_count > 0 then Template.newJobsAlert
      else Template.noNewJobs
    (some t, (send_bulk deliver st st.subscribers).2)

/-- `notify_subscribers_error` (`telegram_bot.py` lines 313-331). -/
def notify_subscribers_error (deliver : Int → DeliveryOutcome) (st : NotifyState)
    (_error_message : String) : Option Template × NotifyState :=
  if st.subscribers.isEmpty then (none, st)
  else (some Template.checkError, (send_bulk deliver st st.subscribers).2)

/-- The result of one HTTP fetch of the listing page, before `get_jobs`
swallows errors. -/
inductive FetchResult where
  | ok (jobs : List Job)
  | fetchError (msg : String)
  deriving DecidableEq

/-- `get_jobs` (`jobs.py`): both the `requests` error branch and the
parse error branch catch the exception and return the empty list, so a
failed fetch is indistinguishable from an empty successful one. -/
def get_jobs (r : FetchResult) : List Job :=
  match r with
  | FetchResult.ok jobs => jobs
  | FetchResult.fetchError _ => []

/-- What one scheduled cycle leaves behind: the posting store, the chosen
template (none when there is no subscriber) and the notifier state. -/
structure CycleOutcome where
  store : Store
  template : Option Template
  notify : NotifyState
  deriving DecidableEq

/-- `check_and_notify_new_jobs` (`telegram_bot.py` lines 237-263): fetch,
and only when the candidate list is non-empty save it and report the
counts; on an empty list (which is also what every fetch failure produces)
skip `save_jobs` and send the no-jobs-found template. The
`notify_subscribers_error` branch is reachable only from an exception
escaping the `try` body, which `get_jobs` never raises. -/
def check_and_notify_new_jobs (deliver : Int → DeliveryOutcome) (s : Store)
    (st : NotifyState) (r : FetchResult) (today : Nat) : CycleOutcome :=
  let jobs := get_jobs r
  if jobs.isEmpty then
    let res := notify_subscribers_daily_update deliver st 0 0 true
    { store := s, template := res.1, notify := res.2 }
  else
    let r2 := save_jobs s jobs today
    let res := notify_subscribers_daily_update deliver st r2.2.1 r2.2.2 false
    { store := r2.1, template := res.1, notify := res.2 }

section NotifyLemmas

/-- The fan-out loop: counters add up to the number of recipients and
every recipient is attempted exactly once, in order. -/
theorem sendBulkLoop_spec (deliver : Int → DeliveryOutcome) :
    ∀ (recipients : List Int) (st : NotifyState) (s f : Nat),
      (sendBulkLoop deliver st recipients s f).1.1 +
        (sendBulkLoop deliver st recipients s f).1.2 = s + f + recipients.length ∧
      (sendBulkLoop deliver st recipients s f).2.attempts = st.attempts ++ recipients := by
  intro recipients
  induction recipients with
  | nil => intro st s f; simp [sendBulkLoop]
  | cons uid rest ih =>
    intro st s f
    cases hd : deliver uid with
    | delivered =>
      have hsend : send_message deliver st uid =
          (true, { st with attempts := st.attempts ++ [uid],
                           deliveredTo := st.deliveredTo ++ [uid] }) := by
        simp [send_message, hd]
      have hstep : sendBulkLoop deliver st (uid :: rest) s f =
          sendBulkLoop deliver
            { st with attempts := st.attempts ++ [uid],
                      deliveredTo := st.deliveredTo ++ [uid] } rest (s + 1) f := by
        simp [sendBulkLoop, hsend]
      rw [hstep]
      refine ⟨?_, ?_⟩
      · rw [(ih _ (s + 1) f).1]
        simp [List.length_cons]
        omega
      · rw [(ih _ (s + 1) f).2]
        simp
    | failed reason =>
      by_cases hperm : isPermanentReason reason = true
      · have hsend : send_message deliver st uid =
            (false, { st with attempts := st.attempts ++ [uid],
                              subscribers := (unsubscribe_user st.subscribers uid).1 }) := by
          simp [send_message, hd, hperm]
        have hstep : sendBulkLoop deliver st (uid :: rest) s f =
            sendBulkLoop deliver
              { st with attempts := st.attempts ++ [uid],
                        subscribers := (unsubscribe_user st.subscribers uid).1 } rest s (f + 1) := by
          simp [sendBulkLoop, hsend]
        rw [hstep]
        refine ⟨?_, ?_⟩
        · rw [(ih _ s (f + 1)).1]
          simp [List.length_cons]
          omega
        · rw [(ih _ s (f + 1)).2]
          simp
      · have hsend : send_message deliver st uid =
            (false, { st with attempts := st.attempts ++ [uid] }) := by
          simp [send_message, hd, hperm]
        have hstep : sendBulkLoop deliver st (uid :: rest) s f =
            sendBulkLoop deliver { st with attempts := st.attempts ++ [uid] } rest s (f + 1) := by
          simp [sendBulkLoop, hsend]
        rw [hstep]
        refine ⟨?_, ?_⟩
        · rw [(ih _ s (f + 1)).1]
          simp [List.length_cons]
          omega
        · rw [(ih _ s (f + 1)).2]
          simp

end NotifyLemmas

/-- C10: `send_bulk` attempts delivery to each recipient exactly once (the
attempt log is extended by exactly the recipient list, in order) and the
two counters always sum to the number of recipients, both being zero for
the empty list. -/
theorem send_bulk_counts (deliver : Int → DeliveryOutcome) (st : NotifyState)
    (recipients : List Int) :
    (send_bulk deliver st recipients).1.1 + (send_bulk deliver st recipients).1.2 =
      recipients.length ∧
    (send_bulk deliver st recipients).2.attempts = st.attempts ++ recipients ∧
    (send_bulk deliver st []).1 = (0, 0) := by
  refine ⟨?_, ?_, rfl⟩
  · cases recipients with
    | nil => rfl
    | cons uid rest =>
      have h := (sendBulkLoop_spec deliver (uid :: rest) st 0 0).1
      simpa [send_bulk] using h
  · cases recipients with
    | nil => simp [send_bulk]
    | cons uid rest =>
      have h := (sendBulkLoop_spec deliver (uid :: rest) st 0 0).2
      simpa [send_bulk] using h

theorem is_subscribed_unsubscribe (subs : List Int) (uid : Int) :
    is_subscribed (unsubscribe_user subs uid).1 uid = false := by
  simp [is_subscribed, unsubscribe_user, List.mem_filter]

/-- `send_bulk` always extends the attempt log by exactly the recipient
list, whatever the delivery outcomes. -/
theorem send_bulk_attempts (deliver : Int → DeliveryOutcome) (st : NotifyState)
    (recipients : List Int) :
    (send_bulk deliver st recipients).2.attempts = st.attempts ++ recipients := by
  cases recipients with
  | nil => simp [send_bulk]
  | cons uid rest =>
    simpa [send_bulk] using (sendBulkLoop_spec deliver (uid :: rest) st 0 0).2

/-- C4: with recipients `[A, B, C]` where `A` and `C` deliver and `B` fails
permanently, `send_bulk` reports 2 successful and 1 failed send, `A` and
`C` receive the message, and `B` is no longer subscribed afterwards —
`B`'s failure does not abort the remaining deliveries. -/
theorem send_bulk_fanout_isolation (deliver : Int → DeliveryOutcome) (subs : List Int)
    (A B C : Int) (reason : String)
    (hA : deliver A = DeliveryOutcome.delivered)
    (hB : deliver B = DeliveryOutcome.failed reason)
    (hC : deliver C = DeliveryOutcome.delivered)
    (hperm : isPermanentReason reason = true) :
    (send_bulk deliver ⟨subs, [], []⟩ [A, B, C]).1 = (2, 1) ∧
    (send_bulk deliver ⟨subs, [], []⟩ [A, B, C]).2.deliveredTo = [A, C] ∧
    is_subscribed (send_bulk deliver ⟨subs, [], []⟩ [A, B, C]).2.subscribers B = false := by
  have hd1 : send_message deliver ⟨subs, [], []⟩ A = (true, ⟨subs, [A], [A]⟩) := by
    simp [send_message, hA]
  have hd2 : send_message deliver ⟨subs, [A], [A]⟩ B =
      (false, ⟨(unsubscribe_user subs B).1, [A, B], [A]⟩) := by
    simp [send_message, hB, hperm]
  have hd3 : send_message deliver ⟨(unsubscribe_user subs B).1, [A, B], [A]⟩ C =
      (true, ⟨(unsubscribe_user subs B).1, [A, B, C], [A, C]⟩) := by
    simp [send_message, hC]
  have hrun : send_bulk deliver ⟨subs, [], []⟩ [A, B, C] =
      ((2, 1), ⟨(unsubscribe_user subs B).1, [A, B, C], [A, C]⟩) := by
    simp [send_bulk, sendBulkLoop, hd1, hd2, hd3]
  rw [hrun]
  exact ⟨rfl, rfl, is_subscribed_unsubscribe subs B⟩

/-- Closed instance of C4 at concrete recipients, with recipient 2 hitting
a permanent failure. -/
theorem send_bulk_fanout_isolation_witness :
    (send_bulk (fun i => if i = 2 then
        DeliveryOutcome.failed "Forbidden: bot was blocked by the user"
      else DeliveryOutcome.delivered) ⟨[1, 2, 3], [], []⟩ [1, 2, 3]).1 = (2, 1) ∧
    (send_bulk (fun i => if i = 2 then
        DeliveryOutcome.failed "Forbidden: bot was blocked by the user"
      else DeliveryOutcome.delivered) ⟨[1, 2, 3], [], []⟩ [1, 2, 3]).2.deliveredTo = [1, 3] ∧
    is_subscribed (send_bulk (fun i => if i = 2 then
        DeliveryOutcome.failed "Forbidden: bot was blocked by the user"
      else DeliveryOutcome.delivered) ⟨[1, 2, 3], [], []⟩ [1, 2, 3]).2.subscribers 2 = false :=
  send_bulk_fanout_isolation (fun i => if i = 2 then
      DeliveryOutcome.failed "Forbidden: bot was blocked by the user"
    else DeliveryOutcome.delivered) [1, 2, 3] 1 2 3
    "Forbidden: bot was blocked by the user" (by decide) (by decide) (by decide) (by decide)

/-- Closed instance of C10 at a concrete recipient list with one failure. -/
theorem send_bulk_counts_witness :
    (send_bulk (fun i => if i = 2 then DeliveryOutcome.failed "Timed out"
      else DeliveryOutcome.delivered) ⟨[1, 2, 3], [], []⟩ [1, 2, 3]).1.1 +
      (send_bulk (fun i => if i = 2 then DeliveryOutcome.failed "Timed out"
        else DeliveryOutcome.delivered) ⟨[1, 2, 3], [], []⟩ [1, 2, 3]).1.2 = 3 ∧
    (send_bulk (fun i => if i = 2 then DeliveryOutcome.failed "Timed out"
      else DeliveryOutcome.delivered) ⟨[1, 2, 3], [], []⟩ [1, 2, 3]).2.attempts = [] ++ [1, 2, 3] ∧
    (send_bulk (fun i => if i = 2 then DeliveryOutcome.failed "Timed out"
      else DeliveryOutcome.delivered) ⟨[1, 2, 3], [], []⟩ []).1 = (0, 0) :=
  send_bulk_counts (fun i => if i = 2 then DeliveryOutcome.failed "Timed out"
    else DeliveryOutcome.delivered) ⟨[1, 2, 3], [], []⟩ [1, 2, 3]

/-- With at least one subscriber, the daily-update notification on the
no-jobs-found path chooses the no-jobs-found template and fans out once. -/
theorem daily_update_no_jobs (deliver : Int → DeliveryOutcome) (st : NotifyState)
    (h : st.subscribers ≠ []) :
    notify_subscribers_daily_update deliver st 0 0 true =
      (some Template.noJobsFound, (send_bulk deliver st st.subscribers).2) := by
  simp [notify_subscribers_daily_update, List.isEmpty_iff, h]

/-- C2 counterexample: at a concrete store, one subscriber and a failed
fetch, the cycle leaves the store unchanged but sends the no-jobs-found
template, not the error template the claim requires. -/
theorem fetch_failure_counterexample :
    (check_and_notify_new_jobs (fun _ => DeliveryOutcome.delivered)
        [⟨"Engineer", "/a", 1, 1, true⟩] ⟨[7], [], []⟩ (FetchResult.fetchError "boom") 2).store =
      [⟨"Engineer", "/a", 1, 1, true⟩] ∧
    (check_and_notify_new_jobs (fun _ => DeliveryOutcome.delivered)
        [⟨"Engineer", "/a", 1, 1, true⟩] ⟨[7], [], []⟩ (FetchResult.fetchError "boom") 2).template =
      some Template.noJobsFound ∧
    (check_and_notify_new_jobs (fun _ => DeliveryOutcome.delivered)
        [⟨"Engineer", "/a", 1, 1, true⟩] ⟨[7], [], []⟩ (FetchResult.fetchError "boom") 2).template ≠
      some Template.checkError := by
  decide

/-- C2 amended: when the fetch fails, `get_jobs` swallows the error into
an empty list, so the cycle leaves the store unchanged (no reconciliation
runs) and sends each subscriber exactly one notification — but with the
zero-candidates (no-jobs-found) template, never the error template. -/
theorem run_cycle_fetch_failure (deliver : Int → DeliveryOutcome) (s : Store)
    (st : NotifyState) (msg : String) (today : Nat) (hsub : st.subscribers ≠ []) :
    (check_and_notify_new_jobs deliver s st (FetchResult.fetchError msg) today).store = s ∧
    (check_and_notify_new_jobs deliver s st (FetchResult.fetchError msg) today).template =
      some Template.noJobsFound ∧
    (check_and_notify_new_jobs deliver s st (FetchResult.fetchError msg) today).notify.attempts =
      st.attempts ++ st.subscribers := by
  have hrun : check_and_notify_new_jobs deliver s st (FetchResult.fetchError msg) today =
      { store := s, template := some Template.noJobsFound,
        notify := (send_bulk deliver st st.subscribers).2 } := by
    simp [check_and_notify_new_jobs, get_jobs, daily_update_no_jobs deliver st hsub]
  rw [hrun]
  exact ⟨rfl, rfl, send_bulk_attempts deliver st st.subscribers⟩

/-- Closed instance of amended C2 at a concrete store and subscriber. -/
theorem run_cycle_fetch_failure_witness :
    (check_and_notify_new_jobs (fun _ => DeliveryOutcome.delivered)
        [⟨"Engineer", "/a", 1, 1, true⟩] ⟨[7], [], []⟩ (FetchResult.fetchError "boom") 2).store =
      [⟨"Engineer", "/a", 1, 1, true⟩] ∧
    (check_and_notify_new_jobs (fun _ => DeliveryOutcome.delivered)
        [⟨"Engineer", "/a", 1, 1, true⟩] ⟨[7], [], []⟩ (FetchResult.fetchError "boom") 2).template =
      some Template.noJobsFound ∧
    (check_and_notify_new_jobs (fun _ => DeliveryOutcome.delivered)
        [⟨"Engineer", "/a", 1, 1, true⟩] ⟨[7], [], []⟩ (FetchResult.fetchError "boom") 2).notify.attempts =
      [] ++ [7] :=
  run_cycle_fetch_failure (fun _ => DeliveryOutcome.delivered)
    [⟨"Engineer", "/a", 1, 1, true⟩] ⟨[7], [], []⟩ "boom" 2 (by decide)

/-- C3 counterexample: at a concrete store with one active posting and a
successful fetch returning the empty list, the cycle leaves the posting
active — the reconciler is not called, contradicting the claim that every
previously-active posting becomes inactive. -/
theorem empty_fetch_counterexample :
    (check_and_notify_new_jobs (fun _ => DeliveryOutcome.delivered)
        [⟨"Engineer", "/a", 1, 1, true⟩] ⟨[7], [], []⟩ (FetchResult.ok []) 2).store =
      [⟨"Engineer", "/a", 1, 1, true⟩] ∧
    ∃ r ∈ (check_and_notify_new_jobs (fun _ => DeliveryOutcome.delivered)
        [⟨"Engineer", "/a", 1, 1, true⟩] ⟨[7], [], []⟩ (FetchResult.ok []) 2).store,
      r.is_active = true := by
  decide

/-- C3 amended: on a successful fetch with an empty candidate list the
cycle does not call `save_jobs` at all: the store (including every
previously-active posting) is unchanged and subscribers get one
no-jobs-found notification each. -/
theorem run_cycle_empty_fetch (deliver : Int → DeliveryOutcome) (s : Store)
    (st : NotifyState) (today : Nat) (hsub : st.subscribers ≠ []) :
    (check_and_notify_new_jobs deliver s st (FetchResult.ok []) today).store = s ∧
    (check_and_notify_new_jobs deliver s st (FetchResult.ok []) today).template =
      some Template.noJobsFound ∧
    (check_and_notify_new_jobs deliver s st (FetchResult.ok []) today).notify.attempts =
      st.attempts ++ st.subscribers := by
  have hrun : check_and_notify_new_jobs deliver s st (FetchResult.ok []) today =
      { store := s, template := some Template.noJobsFound,
        notify := (send_bulk deliver st st.subscribers).2 } := by
    simp [check_and_notify_new_jobs, get_jobs, daily_update_no_jobs deliver st hsub]
  rw [hrun]
  exact ⟨rfl, rfl, send_bulk_attempts deliver st st.subscribers⟩

/-- Closed instance of amended C3 at a concrete store and subscriber. -/
theorem run_cycle_empty_fetch_witness :
    (check_and_notify_new_jobs (fun _ => DeliveryOutcome.delivered)
        [⟨"Engineer", "/a", 1, 1, true⟩] ⟨[7], [], []⟩ (FetchResult.ok []) 2).store =
      [⟨"Engineer", "/a", 1, 1, true⟩] ∧
    (check_and_notify_new_jobs (fun _ => DeliveryOutcome.delivered)
        [⟨"Engineer", "/a", 1, 1, true⟩] ⟨[7], [], []⟩ (FetchResult.ok []) 2).template =
      some Template.noJobsFound ∧
    (check_and_notify_new_jobs (fun _ => DeliveryOutcome.delivered)
        [⟨"Engineer", "/a", 1, 1, true⟩] ⟨[7], [], []⟩ (FetchResult.ok []) 2).notify.attempts =
      [] ++ [7] :=
  run_cycle_empty_fetch (fun _ => DeliveryOutcome.delivered)
    [⟨"Engineer", "/a", 1, 1, true⟩] ⟨[7], [], []⟩ 2 (by decide)

end JobTracker
